import Mathlib

/-!
Verification of the preference-memory subsystem of the PaperPal repository
(`src/preference_manager.py`), via a shallow embedding of its data model
and operations.

Strings are modelled as lists of characters (`Str`).  The LLM client is
modelled as a function from the semantically relevant inputs of each
`chat` call (the language, the current memory and joined new info for a
merge call; the language and over-long memory for a compression call) to
either a response string or an error message; the fixed prompt text that
the Python code wraps around those inputs is abstracted away, since no
claim depends on it.  Python `str.strip()` is modelled over the ASCII
whitespace characters.  Concurrent enqueues that other threads may
perform while a completion call is in flight are modelled by an explicit
`during` list appended to `pending_updates` while the call runs.
Persistence (`save_preferences`) is modelled by its in-memory effect:
it stamps `last_updated` with the current time, passed in as `now`.
-/

namespace PaperPal

/-- A Python string, as its sequence of characters. -/
abbrev Str := List Char

/-- `MAX_MEMORY_LENGTH = 2000` from `preference_manager.py`. -/
def MAX_MEMORY_LENGTH : Nat := 2000

/-- `TARGET_MEMORY_LENGTH = 1500` from `preference_manager.py`. -/
def TARGET_MEMORY_LENGTH : Nat := 1500

/-- ASCII whitespace, as stripped by Python `str.strip()`. -/
def isPySpace (c : Char) : Bool :=
  c == ' ' || c == '\t' || c == '\n' || c == '\r' || c == '\x0b' || c == '\x0c'

/-- Python `s.strip()`: drop leading and trailing whitespace. -/
def pyStrip (s : Str) : Str :=
  ((s.dropWhile isPySpace).reverse.dropWhile isPySpace).reverse

/-- Python `s.lower()` (ASCII). -/
def pyLower (s : Str) : Str := s.map Char.toLower

/-- `leadsWith pat l` holds when `l` starts with `pat`. -/
def leadsWith : Str → Str → Bool
  | [], _ => true
  | _ :: _, [] => false
  | p :: ps, c :: cs => p == c && leadsWith ps cs

/-- Python `pat in l`: some occurrence of `pat` starts somewhere in `l`. -/
def occursIn (pat : Str) : Str → Bool
  | [] => leadsWith pat []
  | c :: cs => leadsWith pat (c :: cs) || occursIn pat cs

/-- Python `l.split(pat, 1)` at the first occurrence of `pat`:
returns the part before and the part after.  (The Python code only uses
the second component under an `in` guard, matching `occursIn`.) -/
def splitOnce (pat : Str) : Str → Str × Str
  | [] => ([], [])
  | c :: cs =>
    if leadsWith pat (c :: cs) = true then
      ([], List.drop pat.length (c :: cs))
    else
      ((splitOnce pat cs).1.cons c, (splitOnce pat cs).2)

/-- Python `"sep".join(xs)` for newline separators. -/
def joinNL (xs : List Str) : Str := List.intercalate ['\n'] xs

/-- Python `", ".join(xs)`. -/
def joinCommaSpace (xs : List Str) : Str := List.intercalate [',', ' '] xs

/-- Python `x or default` for an optional string (`None` and `""` fall
back to the default), as in `self.preferences.language or "en"`. -/
def pyOr (o : Option Str) (d : Str) : Str :=
  match o with
  | some s => if s.isEmpty then d else s
  | none => d

/-- The `QueryRecord` dataclass. -/
structure QueryRecord where
  timestamp : Str
  topic : Str
  time_range : Str
  results_count : Int
deriving DecidableEq

/-- The dict produced by `QueryRecord.to_dict` (`asdict`): the same
fields, keyed by name. -/
structure QueryRecordDict where
  timestamp : Str
  topic : Str
  time_range : Str
  results_count : Int
deriving DecidableEq

/-- `QueryRecord.to_dict`. -/
def QueryRecord.toDict (q : QueryRecord) : QueryRecordDict :=
  ⟨q.timestamp, q.topic, q.time_range, q.results_count⟩

/-- `QueryRecord.from_dict` (`cls(**data)`). -/
def QueryRecordDict.toRecord (q : QueryRecordDict) : QueryRecord :=
  ⟨q.timestamp, q.topic, q.time_range, q.results_count⟩

/-- The `FeedbackRecord` dataclass. -/
structure FeedbackRecord where
  timestamp : Str
  paper_id : Str
  paper_title : Str
  feedback_type : Str
  feedback_reason : Str
deriving DecidableEq

/-- The dict produced by `FeedbackRecord.to_dict` (`asdict`). -/
structure FeedbackRecordDict where
  timestamp : Str
  paper_id : Str
  paper_title : Str
  feedback_type : Str
  feedback_reason : Str
deriving DecidableEq

/-- `FeedbackRecord.to_dict`. -/
def FeedbackRecord.toDict (f : FeedbackRecord) : FeedbackRecordDict :=
  ⟨f.timestamp, f.paper_id, f.paper_title, f.feedback_type, f.feedback_reason⟩

/-- `FeedbackRecord.from_dict` (`cls(**data)`). -/
def FeedbackRecordDict.toRecord (f : FeedbackRecordDict) : FeedbackRecord :=
  ⟨f.timestamp, f.paper_id, f.paper_title, f.feedback_type, f.feedback_reason⟩

/-- The `Preferences` dataclass of `preference_manager.py`. -/
structure Preferences where
  preference_memory : Str := []
  pending_updates : List Str := []
  query_history : List QueryRecord := []
  feedback_history : List FeedbackRecord := []
  language : Option Str := none
  search_mode : Option Str := none
  max_workers : Option Int := none
  save_to_local : Option Bool := none
  output_dir : Option Str := none
  save_results : Option Bool := none
  max_display : Option Int := none
  auto_summary : Option Bool := none
  arxiv_categories : Option (List Str) := none
  last_updated : Str := []
deriving DecidableEq

/-- The JSON-like dict read by `Preferences.from_dict` and produced by
`Preferences.to_dict`.  Each field holds the value `data.get(key)` would
return; `none` stands for an absent key or a JSON `null`.  The trailing
fields are the legacy keyword-list keys of the pre-migration schema,
which `to_dict` never emits. -/
structure PrefDict where
  preference_memory : Option Str := none
  pending_updates : Option (List Str) := none
  query_history : Option (List QueryRecordDict) := none
  feedback_history : Option (List FeedbackRecordDict) := none
  language : Option Str := none
  search_mode : Option Str := none
  max_workers : Option Int := none
  save_to_local : Option Bool := none
  output_dir : Option Str := none
  save_results : Option Bool := none
  max_display : Option Int := none
  auto_summary : Option Bool := none
  arxiv_categories : Option (List Str) := none
  last_updated : Option Str := none
  interested_keywords : Option (List Str) := none
  not_interested_keywords : Option (List Str) := none
  interested_topics : Option (List Str) := none
  not_interested_topics : Option (List Str) := none
  custom_preferences : Option Str := none
deriving DecidableEq

/-- Python truthiness of `data.get(key)` for a list value: present and
non-empty. -/
def truthyList (o : Option (List Str)) : Bool :=
  match o with
  | some l => !l.isEmpty
  | none => false

/-- Python truthiness of `data.get(key)` for a string value: present and
non-empty. -/
def truthyStr (o : Option Str) : Bool :=
  match o with
  | some s => !s.isEmpty
  | none => false

/-- `Preferences.to_dict`. -/
def Preferences.toDict (p : Preferences) : PrefDict :=
  { preference_memory := some p.preference_memory
    pending_updates := some p.pending_updates
    query_history := some (p.query_history.map QueryRecord.toDict)
    feedback_history := some (p.feedback_history.map FeedbackRecord.toDict)
    language := p.language
    search_mode := p.search_mode
    max_workers := p.max_workers
    save_to_local := p.save_to_local
    output_dir := p.output_dir
    save_results := p.save_results
    max_display := p.max_display
    auto_summary := p.auto_summary
    arxiv_categories := p.arxiv_categories
    last_updated := some p.last_updated }

/-- `Preferences.from_dict`, including the legacy-schema migration: when
`preference_memory` is absent or empty, the initial text is synthesized
from the legacy keyword-list fields, in the source's order, joined by
single spaces. -/
def Preferences.fromDict (d : PrefDict) : Preferences :=
  let pm0 := d.preference_memory.getD []
  let preference_memory :=
    if pm0.isEmpty then
      let old_parts : List Str := []
      let old_parts :=
        if truthyList d.interested_keywords then
          old_parts ++ ["Interested in: ".data ++
            joinCommaSpace (d.interested_keywords.getD [])]
        else old_parts
      let old_parts :=
        if truthyList d.not_interested_keywords then
          old_parts ++ ["Not interested in: ".data ++
            joinCommaSpace (d.not_interested_keywords.getD [])]
        else old_parts
      let old_parts :=
        if truthyList d.interested_topics then
          old_parts ++ ["Interested topics: ".data ++
            joinCommaSpace (d.interested_topics.getD [])]
        else old_parts
      let old_parts :=
        if truthyList d.not_interested_topics then
          old_parts ++ ["Topics to avoid: ".data ++
            joinCommaSpace (d.not_interested_topics.getD [])]
        else old_parts
      let old_parts :=
        if truthyStr d.custom_preferences then
          old_parts ++ [d.custom_preferences.getD []]
        else old_parts
      List.intercalate [' '] old_parts
    else pm0
  { preference_memory := preference_memory
    pending_updates := d.pending_updates.getD []
    query_history := (d.query_history.getD []).map QueryRecordDict.toRecord
    feedback_history := (d.feedback_history.getD []).map FeedbackRecordDict.toRecord
    language := d.language
    search_mode := d.search_mode
    max_workers := d.max_workers
    save_to_local := d.save_to_local
    output_dir := d.output_dir
    save_results := d.save_results
    max_display := d.max_display
    auto_summary := d.auto_summary
    arxiv_categories := d.arxiv_categories
    last_updated := d.last_updated.getD [] }

/-- The semantically relevant inputs of the two `llm_client.chat` calls
the subsystem makes: a merge call (from `_process_memory_update`) is
determined by the language, the current memory and the joined new info;
a compression call (from `_compress_memory`) by the language and the
over-long memory.  The surrounding fixed prompt text is abstracted
away. -/
inductive ChatCall where
  | merge (lang current_memory new_info : Str)
  | compress (lang memory : Str)
deriving DecidableEq

/-- The injected text-completion capability: each call either returns a
response string or raises (modelled as `Except.error` carrying
`str(e)`). -/
structure LLMClient where
  chat : ChatCall → Except Str Str

/-- The `COMPRESSED_MEMORY:` marker. -/
def markCM : Str := "COMPRESSED_MEMORY:".data

/-- The `REMOVED_TOPICS` marker. -/
def markRT : Str := "REMOVED_TOPICS".data

/-- The response-parsing block of `_compress_memory`: returns the pair
`(compressed, removed)` exactly as the Python code computes it. -/
def parseCompress (response : Str) : Str × Str :=
  if occursIn markCM response = true then
    let parts := (splitOnce markCM response).2
    if occursIn markRT parts = true then
      let compressed := (splitOnce markRT parts).1
      let removed_part := (splitOnce markRT parts).2
      let removed :=
        if occursIn [':'] removed_part = true then
          pyStrip (splitOnce [':'] removed_part).2
        else []
      (pyStrip compressed, removed)
    else (pyStrip parts, [])
  else (pyStrip response, [])

/-- Notification emitted when compression dropped something. -/
def noteRemoved (removed : Str) : Str :=
  "🗜️ Memory compressed. Removed: ".data ++ removed

/-- Notification emitted on a compression that dropped nothing. -/
def noteCompressed : Str := "🗜️ Memory compressed to fit size limit.".data

/-- Notification emitted on the truncation fallback. -/
def noteTruncated : Str := "🗜️ Memory truncated due to size limit.".data

/-- Result of `_compress_memory`: both branches return a memory and a
notification string. -/
structure CompressOutcome where
  memory : Str
  notification : Str
deriving DecidableEq

/-- `_compress_memory`: ask the LLM to compress; parse the response with
the marker convention; on any completion failure, fall back to hard
truncation to `TARGET_MEMORY_LENGTH` characters.  Also returns the list
of chat calls made, for instrumentation. -/
def compressMemory (llm : LLMClient) (lang memory : Str) :
    CompressOutcome × List ChatCall :=
  match llm.chat (.compress lang memory) with
  | .ok response =>
    let cr := parseCompress response
    let notification :=
      if !cr.2.isEmpty && !(pyLower cr.2 == "none".data) then
        noteRemoved cr.2
      else noteCompressed
    (⟨cr.1, notification⟩, [.compress lang memory])
  | .error _ =>
    (⟨memory.take TARGET_MEMORY_LENGTH, noteTruncated⟩, [.compress lang memory])

/-- The dict returned by `_process_memory_update`:
`{"status": "no_updates"}`, `{"status": "success", "notification": n}`
or `{"status": "error", "message": m}`. -/
inductive MergeStatus where
  | noUpdates
  | success (notification : Option Str)
  | error (message : Str)
deriving DecidableEq

/-- Observable outcome of one `_process_memory_update` run: the returned
status, the resulting `Preferences` state, the chat calls made in order,
and whether `_compress_memory` was invoked. -/
structure MergeReturn where
  status : MergeStatus
  prefs : Preferences
  chatCalls : List ChatCall
  compressionInvoked : Bool
deriving DecidableEq

/-- `_process_memory_update`.  `during` are the fragments other threads
append to `pending_updates` while the merge completion call is in
flight; `now` is the timestamp `save_preferences` would stamp into
`last_updated` on a successful commit. -/
def processMemoryUpdate (llm : LLMClient) (during : List Str) (now : Str)
    (st : Preferences) : MergeReturn :=
  let pending := st.pending_updates
  let st := { st with pending_updates := [] }
  if pending.isEmpty then
    ⟨.noUpdates, st, [], false⟩
  else
    let current_memory := st.preference_memory
    let new_info := joinNL pending
    let lang := pyOr st.language "en".data
    let mergeCall := ChatCall.merge lang current_memory new_info
    let st := { st with pending_updates := st.pending_updates ++ during }
    match llm.chat mergeCall with
    | .error e =>
      ⟨.error e,
       { st with pending_updates := pending ++ st.pending_updates },
       [mergeCall], false⟩
    | .ok response =>
      let new_memory := pyStrip response
      if MAX_MEMORY_LENGTH < new_memory.length then
        let c := compressMemory llm lang new_memory
        ⟨.success (some c.1.notification),
         { st with preference_memory := c.1.memory, last_updated := now },
         mergeCall :: c.2, true⟩
      else
        ⟨.success none,
         { st with preference_memory := new_memory, last_updated := now },
         [mergeCall], false⟩

/-- `add_preference_update`: append the stripped fragment when it is
non-empty after stripping; persisting stamps `last_updated := now`. -/
def addPreferenceUpdate (now update_text : Str) (save : Bool)
    (st : Preferences) : Preferences :=
  if !update_text.isEmpty && !(pyStrip update_text).isEmpty then
    let st := { st with pending_updates := st.pending_updates ++ [pyStrip update_text] }
    if save then { st with last_updated := now } else st
  else st

/-- Observable outcome of one `schedule_memory_update` call:
the resulting state, the merge status (`none` when the guard returned
before enqueuing), the notifications delivered to `on_complete` in
order, the chat calls made, and whether compression was invoked. -/
structure ScheduleReturn where
  prefs : Preferences
  mergeStatus : Option MergeStatus
  callbacks : List Str
  chatCalls : List ChatCall
  compressionInvoked : Bool
deriving DecidableEq

/-- `schedule_memory_update` with an `on_complete` callback supplied:
guard on blank input, enqueue via `add_preference_update`, run
`_process_memory_update` in the background thread, and invoke the
callback only when the result dict has a truthy `"notification"`. -/
def scheduleMemoryUpdate (llm : LLMClient) (during : List Str)
    (now nowMerge new_info : Str) (st : Preferences) : ScheduleReturn :=
  if new_info.isEmpty || (pyStrip new_info).isEmpty then
    ⟨st, none, [], [], false⟩
  else
    let st := addPreferenceUpdate now new_info true st
    let r := processMemoryUpdate llm during nowMerge st
    let callbacks :=
      match r.status with
      | .success (some n) => if n.isEmpty then [] else [n]
      | _ => []
    ⟨r.prefs, some r.status, callbacks, r.chatCalls, r.compressionInvoked⟩

/-! ### Helper lemmas -/

theorem leadsWith_iff (pat : Str) : ∀ l : Str,
    leadsWith pat l = true ↔ ∃ t, l = pat ++ t := by
  induction pat with
  | nil =>
    intro l
    simp [leadsWith]
  | cons p ps ih =>
    intro l
    cases l with
    | nil =>
      simp [leadsWith]
    | cons c cs =>
      simp only [leadsWith, Bool.and_eq_true, beq_iff_eq, ih]
      constructor
      · rintro ⟨rfl, t, rfl⟩
        exact ⟨t, rfl⟩
      · rintro ⟨t, h⟩
        rw [List.cons_append, List.cons_eq_cons] at h
        exact ⟨h.1.symm, t, h.2⟩

theorem splitOnce_spec (pat : Str) : ∀ l : Str, occursIn pat l = true →
    l = (splitOnce pat l).1 ++ pat ++ (splitOnce pat l).2 ∧
    ∀ b a : Str, l = b ++ pat ++ a → (splitOnce pat l).1.length ≤ b.length := by
  intro l
  induction l with
  | nil =>
    intro h
    simp only [occursIn] at h
    obtain ⟨t, ht⟩ := (leadsWith_iff pat []).1 h
    have hpat : pat = [] := by
      cases pat with
      | nil => rfl
      | cons x xs => simp at ht
    subst hpat
    simp [splitOnce]
  | cons c cs ih =>
    intro h
    by_cases hl : leadsWith pat (c :: cs) = true
    · obtain ⟨t, ht⟩ := (leadsWith_iff pat (c :: cs)).1 hl
      constructor
      · simp only [splitOnce, if_pos hl, List.nil_append]
        conv_lhs => rw [ht]
        rw [ht, List.drop_left]
      · intro b a _
        simp [splitOnce, if_pos hl]
    · have hocc : occursIn pat cs = true := by
        simp only [occursIn, Bool.or_eq_true] at h
        rcases h with h | h
        · exact absurd h hl
        · exact h
      obtain ⟨heq, hmin⟩ := ih hocc
      constructor
      · simp only [splitOnce, if_neg hl, List.cons_append]
        exact congrArg (c :: ·) heq
      · intro b a hba
        cases b with
        | nil =>
          exfalso
          apply hl
          exact (leadsWith_iff pat (c :: cs)).2 ⟨a, by simpa using hba⟩
        | cons b0 bs =>
          have : cs = bs ++ pat ++ a := by
            simpa using congrArg List.tail hba
          have := hmin bs a this
          simp only [splitOnce, if_neg hl, List.cons_append, List.length_cons]
          omega

theorem dropWhile_replicate {p : Char → Bool} {c : Char} (hp : p c = false) :
    ∀ n, List.dropWhile p (List.replicate n c) = List.replicate n c := by
  intro n
  cases n with
  | zero => simp
  | succ m => simp [List.replicate_succ, List.dropWhile_cons, hp]

theorem pyStrip_replicate {c : Char} (hc : isPySpace c = false) (n : Nat) :
    pyStrip (List.replicate n c) = List.replicate n c := by
  simp [pyStrip, dropWhile_replicate hc, List.reverse_replicate]

theorem occursIn_replicate {p : Char} {ps : Str} {c : Char}
    (hpc : (p == c) = false) : ∀ n, occursIn (p :: ps) (List.replicate n c) = false := by
  intro n
  induction n with
  | zero => simp [occursIn, leadsWith]
  | succ m ih =>
    simp only [List.replicate_succ, occursIn, leadsWith, hpc, Bool.false_and,
      Bool.false_or]
    exact ih

theorem pyStrip_eq_nil_iff (t : Str) :
    pyStrip t = [] ↔ t.all isPySpace = true := by
  constructor
  · intro h
    have h2 : (t.dropWhile isPySpace).reverse.dropWhile isPySpace = [] := by
      have := congrArg List.reverse h
      simpa [pyStrip] using this
    have hall : ∀ x ∈ (t.dropWhile isPySpace).reverse, isPySpace x :=
      List.dropWhile_eq_nil_iff.1 h2
    rw [List.all_eq_true]
    intro x hx
    rcases List.mem_append.1
        (by rw [List.takeWhile_append_dropWhile]; exact hx :
          x ∈ t.takeWhile isPySpace ++ t.dropWhile isPySpace) with hx' | hx'
    · exact List.mem_takeWhile_imp hx'
    · exact hall x (List.mem_reverse.2 hx')
  · intro h
    have : t.dropWhile isPySpace = [] := by
      rw [List.dropWhile_eq_nil_iff]
      intro x hx
      exact List.all_eq_true.1 h x hx
    simp [pyStrip, this]

/-! ### Claims -/

/-- C7: calling `_process_memory_update` when `pending_updates` is empty
returns the `no_updates` result immediately, leaves the whole state
(including `preference_memory` and `last_updated`) unchanged, makes no
call to the text-completion capability, and does not raise. -/
theorem merge_noop_on_empty_queue (llm : LLMClient) (during : List Str)
    (now : Str) (st : Preferences) (h : st.pending_updates = []) :
    processMemoryUpdate llm during now st = ⟨.noUpdates, st, [], false⟩ := by
  cases st
  simp only at h
  subst h
  simp [processMemoryUpdate]

/-- Witness for C7 at a concrete empty state. -/
theorem merge_noop_on_empty_queue_witness :
    processMemoryUpdate ⟨fun _ => .error []⟩ [] [] {} =
      ⟨.noUpdates, {}, [], false⟩ :=
  merge_noop_on_empty_queue _ _ _ _ rfl

/-- C2: when the merge completion call fails, the error is returned, the
memory text and `last_updated` are unchanged, and the drained fragments
are pushed back to the front of `pending_updates` in their original
relative order, ahead of the fragments enqueued during the call, none of
which are lost.  In particular with pending `[a, b]`, a failed merge and
a subsequent enqueue of `c`, the next merge drains `[a, b, c]`. -/
theorem merge_failure_requeues (llm : LLMClient) (during : List Str)
    (now : Str) (st : Preferences) (e : Str)
    (hne : st.pending_updates ≠ [])
    (hfail : llm.chat (.merge (pyOr st.language "en".data)
      st.preference_memory (joinNL st.pending_updates)) = .error e) :
    (processMemoryUpdate llm during now st).status = .error e ∧
    (processMemoryUpdate llm during now st).prefs.preference_memory =
      st.preference_memory ∧
    (processMemoryUpdate llm during now st).prefs.last_updated =
      st.last_updated ∧
    (processMemoryUpdate llm during now st).prefs.pending_updates =
      st.pending_updates ++ during := by
  have hne' : st.pending_updates.isEmpty = false := by
    simpa [List.isEmpty_iff] using hne
  simp [processMemoryUpdate, hne', hfail]

/-- Witness for C2: pending `["a", "b"]`, the merge call fails, `"c"` is
enqueued while the call is in flight; the resulting queue is
`["a", "b", "c"]` and memory is untouched. -/
theorem merge_failure_requeues_witness :
    (processMemoryUpdate ⟨fun _ => .error "boom".data⟩ [['c']] []
        { preference_memory := ['m'], pending_updates := [['a'], ['b']] }
      ).status = .error "boom".data ∧
    (processMemoryUpdate ⟨fun _ => .error "boom".data⟩ [['c']] []
        { preference_memory := ['m'], pending_updates := [['a'], ['b']] }
      ).prefs.preference_memory = ['m'] ∧
    (processMemoryUpdate ⟨fun _ => .error "boom".data⟩ [['c']] []
        { preference_memory := ['m'], pending_updates := [['a'], ['b']] }
      ).prefs.last_updated = [] ∧
    (processMemoryUpdate ⟨fun _ => .error "boom".data⟩ [['c']] []
        { preference_memory := ['m'], pending_updates := [['a'], ['b']] }
      ).prefs.pending_updates = [['a'], ['b'], ['c']] :=
  merge_failure_requeues _ _ _ _ _ (by decide) rfl

/-- C3: when the completion call during compression fails,
`_compress_memory` does not raise: it returns the first
`TARGET_MEMORY_LENGTH = 1500` characters of the input text together
with the fixed notification, which contains `"truncated"`. -/
theorem compress_failure_truncates (llm : LLMClient) (lang memory e : Str)
    (h : llm.chat (.compress lang memory) = .error e) :
    (compressMemory llm lang memory).1 =
      ⟨memory.take TARGET_MEMORY_LENGTH, noteTruncated⟩ ∧
    occursIn "truncated".data noteTruncated = true := by
  constructor
  · simp [compressMemory, h]
  · decide

/-- Witness for C3 at a concrete failing client. -/
theorem compress_failure_truncates_witness :
    (compressMemory ⟨fun _ => .error "down".data⟩ "en".data "abc".data).1 =
      ⟨"abc".data.take TARGET_MEMORY_LENGTH, noteTruncated⟩ ∧
    occursIn "truncated".data noteTruncated = true :=
  compress_failure_truncates _ _ _ "down".data rfl

/-- C4: for a merge whose completion call succeeds, the merge result is
a success, and `_compress_memory` is invoked if and only if the merged
text (the stripped response) is strictly longer than
`MAX_MEMORY_LENGTH = 2000` characters. -/
theorem compression_iff_over_limit (llm : LLMClient) (during : List Str)
    (now : Str) (st : Preferences) (response : Str)
    (hne : st.pending_updates ≠ [])
    (hok : llm.chat (.merge (pyOr st.language "en".data)
      st.preference_memory (joinNL st.pending_updates)) = .ok response) :
    ((processMemoryUpdate llm during now st).compressionInvoked = true ↔
      MAX_MEMORY_LENGTH < (pyStrip response).length) ∧
    ∃ n, (processMemoryUpdate llm during now st).status = .success n := by
  have hne' : st.pending_updates.isEmpty = false := by
    simpa [List.isEmpty_iff] using hne
  by_cases hlen : MAX_MEMORY_LENGTH < (pyStrip response).length
  · simp [processMemoryUpdate, hne', hok, hlen]
  · simp [processMemoryUpdate, hne', hok, hlen]

/-- Witness for C4: a short successful response does not trigger
compression. -/
theorem compression_iff_over_limit_witness :
    ((processMemoryUpdate ⟨fun _ => .ok "likes RL".data⟩ [] []
        { pending_updates := [['x']] }).compressionInvoked = true ↔
      MAX_MEMORY_LENGTH < (pyStrip "likes RL".data).length) ∧
    ∃ n, (processMemoryUpdate ⟨fun _ => .ok "likes RL".data⟩ [] []
        { pending_updates := [['x']] }).status = .success n :=
  compression_iff_over_limit _ _ _ _ _ (by decide) rfl

/-- C9: for an input that is empty or all-whitespace,
`add_preference_update` is a no-op and `schedule_memory_update` returns
immediately without enqueuing anything, launching a merge, or invoking
the callback; for any other input the fragment is stripped and appended
to `pending_updates`. -/
theorem blank_update_is_noop (t now : Str) (save : Bool) (llm : LLMClient)
    (during : List Str) (nowM : Str) (st : Preferences) :
    (t.all isPySpace = true →
      addPreferenceUpdate now t save st = st ∧
      scheduleMemoryUpdate llm during now nowM t st =
        ⟨st, none, [], [], false⟩) ∧
    (t.all isPySpace = false →
      (addPreferenceUpdate now t save st).pending_updates =
        st.pending_updates ++ [pyStrip t]) := by
  constructor
  · intro h
    have hs : pyStrip t = [] := (pyStrip_eq_nil_iff t).2 h
    constructor
    · simp [addPreferenceUpdate, hs]
    · simp [scheduleMemoryUpdate, hs]
  · intro h
    have hs : ¬ pyStrip t = [] := by
      intro hc
      rw [(pyStrip_eq_nil_iff t).1 hc] at h
      cases h
    have ht : ¬ t = [] := by
      intro hc
      subst hc
      simp [List.all_nil] at h
    have h1 : t.isEmpty = false := by simpa [List.isEmpty_iff] using ht
    have h2 : (pyStrip t).isEmpty = false := by
      simpa [List.isEmpty_iff] using hs
    cases save <;> simp [addPreferenceUpdate, h1, h2]

/-- Witness for C9: a whitespace-only fragment is dropped; `"x "` is
stripped and appended. -/
theorem blank_update_is_noop_witness :
    (addPreferenceUpdate [] [' ', ' '] true {} = {} ∧
     scheduleMemoryUpdate ⟨fun _ => .error []⟩ [] [] [] [' ', ' '] {} =
       ⟨{}, none, [], [], false⟩) ∧
    (addPreferenceUpdate [] ['x', ' '] true {}).pending_updates =
      ({} : Preferences).pending_updates ++ [pyStrip ['x', ' ']] :=
  ⟨(blank_update_is_noop [' ', ' '] [] true ⟨fun _ => .error []⟩ [] [] {}).1
      (by decide),
   (blank_update_is_noop ['x', ' '] [] true ⟨fun _ => .error []⟩ [] [] {}).2
      (by decide)⟩

/-- The migrated text as the spec describes it: the human-readable
rendering of each present (non-empty) legacy field, in the fixed order
interested keywords, not-interested keywords, interested topics,
avoided topics, custom free-text, joined by single spaces. -/
def migratedMemoryText (d : PrefDict) : Str :=
  List.intercalate [' ']
    ((match d.interested_keywords with
      | some l => if l.isEmpty then [] else
          ["Interested in: ".data ++ joinCommaSpace l]
      | none => []) ++
     (match d.not_interested_keywords with
      | some l => if l.isEmpty then [] else
          ["Not interested in: ".data ++ joinCommaSpace l]
      | none => []) ++
     (match d.interested_topics with
      | some l => if l.isEmpty then [] else
          ["Interested topics: ".data ++ joinCommaSpace l]
      | none => []) ++
     (match d.not_interested_topics with
      | some l => if l.isEmpty then [] else
          ["Topics to avoid: ".data ++ joinCommaSpace l]
      | none => []) ++
     (match d.custom_preferences with
      | some s => if s.isEmpty then [] else [s]
      | none => []))

theorem cond_append (acc : List Str) (b : Bool) (x : Str) :
    (if b = true then acc ++ [x] else acc) =
      acc ++ (if b = true then [x] else []) := by
  cases b <;> simp

theorem segList_eq (o : Option (List Str)) (pre : Str) :
    (if truthyList o = true then [pre ++ joinCommaSpace (o.getD [])] else []) =
      (match o with
       | some l => if l.isEmpty then [] else [pre ++ joinCommaSpace l]
       | none => []) := by
  cases o with
  | none => simp [truthyList]
  | some l => cases l <;> simp [truthyList]

theorem segStr_eq (o : Option Str) :
    (if truthyStr o = true then [o.getD []] else []) =
      (match o with
       | some s => if s.isEmpty then [] else [s]
       | none => []) := by
  cases o with
  | none => simp [truthyStr]
  | some s => cases s <;> simp [truthyStr]

/-- C8: on load, when the stored record has no `preference_memory`
field, `from_dict` synthesizes the initial text deterministically by
concatenating the renderings of each present legacy field in the fixed
order interested keywords, not-interested keywords, interested topics,
avoided topics, custom free-text. -/
theorem legacy_migration_fixed_order (d : PrefDict)
    (h : d.preference_memory = none) :
    (Preferences.fromDict d).preference_memory = migratedMemoryText d := by
  simp only [Preferences.fromDict, migratedMemoryText, h, Option.getD_none,
    List.isEmpty_nil, if_true]
  rw [cond_append, cond_append, cond_append, cond_append, cond_append]
  simp only [List.nil_append, List.append_assoc]
  rw [segList_eq, segList_eq, segList_eq, segList_eq, segStr_eq]

/-- Witness for C8 on a concrete legacy record with two present
fields. -/
theorem legacy_migration_fixed_order_witness :
    (Preferences.fromDict
        { interested_keywords := some ["RL".data, "NLP".data],
          custom_preferences := some "Prefers theory.".data }
      ).preference_memory =
    migratedMemoryText
      { interested_keywords := some ["RL".data, "NLP".data],
        custom_preferences := some "Prefers theory.".data } :=
  legacy_migration_fixed_order _ rfl

/-- `QueryRecord.from_dict` undoes `QueryRecord.to_dict`. -/
theorem query_record_roundtrip (q : QueryRecord) :
    QueryRecordDict.toRecord (QueryRecord.toDict q) = q := rfl

/-- `FeedbackRecord.from_dict` undoes `FeedbackRecord.to_dict`. -/
theorem feedback_record_roundtrip (f : FeedbackRecord) :
    FeedbackRecordDict.toRecord (FeedbackRecord.toDict f) = f := rfl

theorem query_comp_eq_id :
    QueryRecordDict.toRecord ∘ QueryRecord.toDict = id := by
  funext q
  rfl

theorem feedback_comp_eq_id :
    FeedbackRecordDict.toRecord ∘ FeedbackRecord.toDict = id := by
  funext f
  rfl

theorem intercalate_space_nil : List.intercalate [' '] ([] : List Str) = [] :=
  rfl

/-- C10: serialization round-trips: `from_dict (to_dict p) = p` for
every `Preferences` value, the migration branch never altering a record
produced by `to_dict` since `to_dict` emits no legacy fields. -/
theorem from_dict_to_dict_roundtrip (p : Preferences) :
    Preferences.fromDict (Preferences.toDict p) = p := by
  rcases p with ⟨pm, pu, qh, fh, lg, sm, mw, sl, od, sr, md, au, ac, lu⟩
  cases pm with
  | nil =>
    simp [Preferences.toDict, Preferences.fromDict, truthyList, truthyStr,
      query_comp_eq_id, feedback_comp_eq_id, intercalate_space_nil]
  | cons c cs =>
    simp [Preferences.toDict, Preferences.fromDict, truthyList, truthyStr,
      query_comp_eq_id, feedback_comp_eq_id, intercalate_space_nil]

/-- C5: the compression-response parser.  When the response contains the
`COMPRESSED_MEMORY:` marker, the compressed text is the (stripped)
portion after the first occurrence of that marker — up to the first
`REMOVED_TOPICS` marker when one is present, in which case the text
after the first colon of what follows is the (stripped) removed-topics
report, and the empty report otherwise.  When the marker is absent, the
entire (stripped) response is taken as the compressed text and no
removal is reported. -/
theorem compress_parse_contract (r : Str) :
    (occursIn markCM r = false → parseCompress r = (pyStrip r, [])) ∧
    (occursIn markCM r = true →
      ∃ pre rest,
        r = pre ++ markCM ++ rest ∧
        (∀ pre2 rest2 : Str, r = pre2 ++ markCM ++ rest2 →
          pre.length ≤ pre2.length) ∧
        ((occursIn markRT rest = false ∧
          parseCompress r = (pyStrip rest, [])) ∨
         (occursIn markRT rest = true ∧
          ∃ mid tl,
            rest = mid ++ markRT ++ tl ∧
            (∀ mid2 tl2 : Str, rest = mid2 ++ markRT ++ tl2 →
              mid.length ≤ mid2.length) ∧
            parseCompress r =
              (pyStrip mid,
               if occursIn [':'] tl = true then pyStrip (splitOnce [':'] tl).2
               else [])))) := by
  constructor
  · intro h
    simp [parseCompress, h]
  · intro h
    obtain ⟨heq, hmin⟩ := splitOnce_spec markCM r h
    refine ⟨(splitOnce markCM r).1, (splitOnce markCM r).2, heq, hmin, ?_⟩
    by_cases h2 : occursIn markRT (splitOnce markCM r).2 = true
    · obtain ⟨heq2, hmin2⟩ := splitOnce_spec markRT (splitOnce markCM r).2 h2
      refine Or.inr ⟨h2, (splitOnce markRT (splitOnce markCM r).2).1,
        (splitOnce markRT (splitOnce markCM r).2).2, heq2, hmin2, ?_⟩
      simp [parseCompress, h, h2]
    · refine Or.inl ⟨by simpa using h2, ?_⟩
      simp [parseCompress, h, h2]

/-- Witness for C5 on a concrete marker-bearing response. -/
theorem compress_parse_contract_witness :
    ∃ pre rest,
      "xCOMPRESSED_MEMORY:y".data = pre ++ markCM ++ rest ∧
      (∀ pre2 rest2 : Str,
        "xCOMPRESSED_MEMORY:y".data = pre2 ++ markCM ++ rest2 →
        pre.length ≤ pre2.length) ∧
      ((occursIn markRT rest = false ∧
        parseCompress "xCOMPRESSED_MEMORY:y".data = (pyStrip rest, [])) ∨
       (occursIn markRT rest = true ∧
        ∃ mid tl,
          rest = mid ++ markRT ++ tl ∧
          (∀ mid2 tl2 : Str, rest = mid2 ++ markRT ++ tl2 →
            mid.length ≤ mid2.length) ∧
          parseCompress "xCOMPRESSED_MEMORY:y".data =
            (pyStrip mid,
             if occursIn [':'] tl = true then pyStrip (splitOnce [':'] tl).2
             else []))) :=
  (compress_parse_contract "xCOMPRESSED_MEMORY:y".data).2 (by decide)

theorem compress_notification_ne_nil (llm : LLMClient) (lang memory : Str) :
    (compressMemory llm lang memory).1.notification ≠ [] := by
  have h1 : ∀ s : Str, noteRemoved s ≠ [] := by
    intro s h
    exact absurd (List.append_eq_nil.1 h).1 (by decide)
  have h2 : noteCompressed ≠ [] := by decide
  have h3 : noteTruncated ≠ [] := by decide
  unfold compressMemory
  cases hchat : llm.chat (.compress lang memory) with
  | error e => simpa using h3
  | ok response =>
    simp only
    split_ifs with hc
    · exact h1 _
    · exact h2

theorem merge_notification_iff_compression (llm : LLMClient)
    (during : List Str) (now : Str) (st : Preferences) :
    ((∃ n, (processMemoryUpdate llm during now st).status =
        .success (some n) ∧ n ≠ []) ↔
      (processMemoryUpdate llm during now st).compressionInvoked = true) := by
  unfold processMemoryUpdate
  by_cases hp : st.pending_updates.isEmpty = true
  · simp [hp]
  · simp only [hp, if_false, Bool.false_eq_true]
    cases hchat : llm.chat (.merge (pyOr st.language "en".data)
        st.preference_memory (joinNL st.pending_updates)) with
    | error e => simp
    | ok response =>
      by_cases hl : MAX_MEMORY_LENGTH < (pyStrip response).length
      · simp [hl, compress_notification_ne_nil llm]
      · simp [hl]

/-- C6: for every scheduled merge, the `on_complete` callback is
invoked at most once, and it is invoked exactly when the merge invoked
the compression protocol (whose result always carries a non-empty
notification); it is never invoked on a failed merge, on a no-op merge,
on a merge that succeeded without compression, or when the blank-input
guard returned early. -/
theorem callback_iff_compression (llm : LLMClient) (during : List Str)
    (now nowMerge new_info : Str) (st : Preferences) :
    (scheduleMemoryUpdate llm during now nowMerge new_info st).callbacks.length ≤ 1 ∧
    ((scheduleMemoryUpdate llm during now nowMerge new_info st).callbacks ≠ [] ↔
      (scheduleMemoryUpdate llm during now nowMerge new_info st).compressionInvoked = true) ∧
    (∀ e, (scheduleMemoryUpdate llm during now nowMerge new_info st).mergeStatus =
        some (.error e) →
      (scheduleMemoryUpdate llm during now nowMerge new_info st).callbacks = []) ∧
    ((scheduleMemoryUpdate llm during now nowMerge new_info st).mergeStatus =
        some .noUpdates →
      (scheduleMemoryUpdate llm during now nowMerge new_info st).callbacks = []) ∧
    ((scheduleMemoryUpdate llm during now nowMerge new_info st).mergeStatus =
        some (.success none) →
      (scheduleMemoryUpdate llm during now nowMerge new_info st).callbacks = []) ∧
    ((scheduleMemoryUpdate llm during now nowMerge new_info st).mergeStatus = none →
      (scheduleMemoryUpdate llm during now nowMerge new_info st).callbacks = []) := by
  unfold scheduleMemoryUpdate
  by_cases hg : (new_info.isEmpty || (pyStrip new_info).isEmpty) = true
  · simp [hg]
  · simp only [hg, if_false, Bool.false_eq_true]
    have hiff := merge_notification_iff_compression llm during nowMerge
      (addPreferenceUpdate now new_info true st)
    cases hst : (processMemoryUpdate llm during nowMerge
        (addPreferenceUpdate now new_info true st)).status with
    | noUpdates =>
      rw [hst] at hiff
      have hc : ¬ ((processMemoryUpdate llm during nowMerge
          (addPreferenceUpdate now new_info true st)).compressionInvoked = true) := by
        intro h
        obtain ⟨n, hn, _⟩ := hiff.2 h
        simp at hn
      simp [hc]
    | error e =>
      rw [hst] at hiff
      have hc : ¬ ((processMemoryUpdate llm during nowMerge
          (addPreferenceUpdate now new_info true st)).compressionInvoked = true) := by
        intro h
        obtain ⟨n, hn, _⟩ := hiff.2 h
        simp at hn
      simp [hc]
    | success n =>
      rw [hst] at hiff
      cases n with
      | none =>
        have hc : ¬ ((processMemoryUpdate llm during nowMerge
            (addPreferenceUpdate now new_info true st)).compressionInvoked = true) := by
          intro h
          obtain ⟨n, hn, _⟩ := hiff.2 h
          simp at hn
        simp [hc]
      | some n' =>
        by_cases hn' : n'.isEmpty = true
        · have hne : n' = [] := by simpa [List.isEmpty_iff] using hn'
          have hc : ¬ ((processMemoryUpdate llm during nowMerge
              (addPreferenceUpdate now new_info true st)).compressionInvoked = true) := by
            intro h
            obtain ⟨m, hm, hmne⟩ := hiff.2 h
            rw [MergeStatus.success.injEq, Option.some_inj] at hm
            exact hmne (hm ▸ hne)
          simp [hn', hc]
        · have hc : (processMemoryUpdate llm during nowMerge
              (addPreferenceUpdate now new_info true st)).compressionInvoked = true :=
            hiff.1 ⟨n', rfl, by simpa [List.isEmpty_iff] using hn'⟩
          simp [hn', hc]

/-- Witness for C6: a failing merge invokes no callback. -/
theorem callback_iff_compression_witness :
    (scheduleMemoryUpdate ⟨fun _ => .error ['e']⟩ [] [] [] "info".data {}
      ).callbacks = [] :=
  (callback_iff_compression ⟨fun _ => .error ['e']⟩ [] [] [] "info".data {}
    ).2.2.1 ['e'] rfl

/-- A completion capability whose merge response is `n` copies of `'a'`
and whose compression response is `m` copies of `'a'` (marker-free plain
text). -/
def llmRep (n m : Nat) : LLMClient :=
  ⟨fun c =>
    match c with
    | .merge _ _ _ => .ok (List.replicate n 'a')
    | .compress _ _ => .ok (List.replicate m 'a')⟩

theorem llmRep_run (n m : Nat) (hn : MAX_MEMORY_LENGTH < n) :
    (processMemoryUpdate (llmRep n m) [] [] { pending_updates := [['x']] }
      ).status = .success (some noteCompressed) ∧
    (processMemoryUpdate (llmRep n m) [] [] { pending_updates := [['x']] }
      ).prefs.preference_memory.length = m := by
  have hstrip1 : pyStrip (List.replicate n 'a') = List.replicate n 'a' :=
    pyStrip_replicate (by decide) n
  have hstrip2 : pyStrip (List.replicate m 'a') = List.replicate m 'a' :=
    pyStrip_replicate (by decide) m
  have hocc : occursIn markCM (List.replicate m 'a') = false := by
    rw [show markCM = 'C' :: "OMPRESSED_MEMORY:".data by decide]
    exact occursIn_replicate (by decide) m
  simp [processMemoryUpdate, llmRep, compressMemory, parseCompress,
    hstrip1, hstrip2, hocc, hn]

/-- Counterexample to C1: a merge that completes successfully (the
compression completion call succeeded and returned a replacement text)
commits a preference memory of length 2500 > 2000: the parsed
compression response is committed without any length check. -/
theorem merge_commit_exceeds_bound_cex :
    (processMemoryUpdate (llmRep 2001 2500) [] [] { pending_updates := [['x']] }
      ).status = .success (some noteCompressed) ∧
    MAX_MEMORY_LENGTH <
      (processMemoryUpdate (llmRep 2001 2500) [] [] { pending_updates := [['x']] }
        ).prefs.preference_memory.length := by
  obtain ⟨h1, h2⟩ := llmRep_run 2001 2500 (by decide)
  refine ⟨h1, ?_⟩
  rw [h2]
  decide

/-- C1 amended: after a completed (successful) merge the committed text
has length at most 2000 except when the compression completion call
succeeded, in which case the committed text is the parsed compression
response, committed without any length check; in particular the bound
does hold whenever no compression was needed or compression fell back
to truncation. -/
theorem merge_commit_length_spec (llm : LLMClient) (during : List Str)
    (now : Str) (st : Preferences) (n : Option Str)
    (h : (processMemoryUpdate llm during now st).status = .success n) :
    (processMemoryUpdate llm during now st).prefs.preference_memory.length ≤
      MAX_MEMORY_LENGTH ∨
    ∃ mresp cresp,
      llm.chat (.merge (pyOr st.language "en".data) st.preference_memory
        (joinNL st.pending_updates)) = .ok mresp ∧
      MAX_MEMORY_LENGTH < (pyStrip mresp).length ∧
      llm.chat (.compress (pyOr st.language "en".data) (pyStrip mresp)) =
        .ok cresp ∧
      (processMemoryUpdate llm during now st).prefs.preference_memory =
        (parseCompress cresp).1 := by
  unfold processMemoryUpdate at h ⊢
  by_cases hp : st.pending_updates.isEmpty = true
  · simp [hp] at h
  · simp only [hp, Bool.false_eq_true, if_false] at h ⊢
    cases hchat : llm.chat (.merge (pyOr st.language ['e', 'n'])
        st.preference_memory (joinNL st.pending_updates)) with
    | error e =>
      rw [hchat] at h
      simp at h
    | ok mresp =>
      by_cases hl : MAX_MEMORY_LENGTH < (pyStrip mresp).length
      · unfold compressMemory
        cases hchat2 : llm.chat (.compress (pyOr st.language ['e', 'n'])
            (pyStrip mresp)) with
        | error e =>
          left
          have h15 : TARGET_MEMORY_LENGTH ≤ MAX_MEMORY_LENGTH := by decide
          simp only [hl, if_true, hchat2, List.length_take]
          omega
        | ok cresp =>
          right
          refine ⟨mresp, cresp, rfl, hl, hchat2, ?_⟩
          simp [hl, hchat2]
      · left
        simpa [hl] using Nat.le_of_not_lt hl

/-- Witness for the amended C1: a short successful merge keeps the
bound. -/
theorem merge_commit_length_spec_witness :
    (processMemoryUpdate ⟨fun _ => .ok ['h', 'i']⟩ [] []
        { pending_updates := [['x']] }
      ).prefs.preference_memory.length ≤ MAX_MEMORY_LENGTH ∨
    ∃ mresp cresp,
      (⟨fun _ => .ok ['h', 'i']⟩ : LLMClient).chat
          (.merge (pyOr ({ pending_updates := [['x']] } : Preferences).language
            "en".data)
            ({ pending_updates := [['x']] } : Preferences).preference_memory
            (joinNL ({ pending_updates := [['x']] } : Preferences).pending_updates)) =
        .ok mresp ∧
      MAX_MEMORY_LENGTH < (pyStrip mresp).length ∧
      (⟨fun _ => .ok ['h', 'i']⟩ : LLMClient).chat
          (.compress (pyOr ({ pending_updates := [['x']] } : Preferences).language
            "en".data) (pyStrip mresp)) = .ok cresp ∧
      (processMemoryUpdate ⟨fun _ => .ok ['h', 'i']⟩ [] []
          { pending_updates := [['x']] }
        ).prefs.preference_memory = (parseCompress cresp).1 :=
  merge_commit_length_spec ⟨fun _ => .ok ['h', 'i']⟩ [] []
    { pending_updates := [['x']] } none rfl

end PaperPal
